import Mathlib

/-!
Verification of the stale-PR detection pipeline of the pr-tracker service.

The Go source is embedded shallowly:

* timestamps are `Int` values counting milliseconds since the Unix epoch
  (Go stores `CreatedDate`/`UpdatedDate` as millisecond epoch `int64`);
* `time.Time` values are identified with the millisecond instant they denote;
  Go's zero `time.Time` (January 1, year 1, UTC) corresponds to the instant
  `-62135596800000` ms, so `t.IsZero()` becomes a comparison with that value;
* `time.Format(time.RFC3339)` renders whole seconds (the layout has no
  fractional part and Go truncates), so the instant denoted by the rendered
  string is the floor of the millisecond instant divided by 1000;
* fallible collaborator calls (`ListOpenPRs`, `GetParticipants`,
  `GetComments`, checkpoint read/write) become `Except Unit`-valued oracles
  packaged in an environment record, read by the orchestrator exactly where
  the Go code inspects the returned `error`;
* Go string lowering and `strings.Contains` become character-list lowering
  and list containment (UTF-8 is self-synchronizing, so byte-level substring
  containment of valid strings coincides with character-level containment).
-/

namespace PRTracker

/-- The fields of `models.PullRequest` (pkg/models) that the stale-PR core
reads: `ID`, `Title`, `CreatedDate`, `UpdatedDate` (millisecond epoch).
Author and participant snapshot fields are never read by the pipeline. -/
structure PullRequest where
  id : Int
  title : String
  createdDate : Int
  updatedDate : Int
deriving DecidableEq

/-- The fields of `models.Participant` read by the core: `User`, `Role`,
`Approved`, `Status`. -/
structure Participant where
  user : String
  role : String
  approved : Bool
  status : String
deriving DecidableEq

/-- The fields of `models.Comment` read by the core: the two millisecond
timestamps. `GetLastActivity` only ever reads `UpdatedDate`. -/
structure Comment where
  createdDate : Int
  updatedDate : Int
deriving DecidableEq

/-- The instant of Go's zero `time.Time` (0001-01-01T00:00:00Z) in
milliseconds since the Unix epoch: `time.UnixMilli ms |>.IsZero()` holds
exactly when `ms` equals this value. In particular `time.UnixMilli 0` (the
Unix epoch) is NOT the zero time. -/
def zeroTimeUnixMilli : Int := -62135596800000

/-- Lowercased character list of a string: models `strings.ToLower` composed
with reading the string's characters. -/
def strLower (s : String) : List Char := s.toList.map Char.toLower

/-- `containsIgnoreKeyword` (internal/bitbucket): lowers the title once and
returns true as soon as some keyword, lowered, occurs inside it.
`strings.Contains` is modelled as character-list containment. -/
def containsIgnoreKeyword (title : String) (keywords : List String) : Bool :=
  let titleLower := strLower title
  keywords.any fun kw => decide (strLower kw <:+: titleLower)

/-- `FilterPRs` (internal/bitbucket): keeps, in order, the PRs whose title
does not contain any ignore keyword. The Go loop appends survivors to an
accumulator, which is the fold below. -/
def FilterPRs (prs : List PullRequest) (ignoreKeywords : List String) : List PullRequest :=
  prs.foldl
    (fun acc pr => if containsIgnoreKeyword pr.title ignoreKeywords then acc else acc ++ [pr]) []

/-- `IsPRApproved` (internal/bitbucket): scans the participants and returns
false on the first participant whose role is REVIEWER and whose approved
flag is false; otherwise true. -/
def IsPRApproved : List Participant → Bool
  | [] => true
  | p :: rest => if p.role == "REVIEWER" && !p.approved then false else IsPRApproved rest

/-- `CountApprovals` (internal/bitbucket): `(approved, total)` counting only
REVIEWER-role participants. -/
def CountApprovals : List Participant → Int × Int
  | [] => (0, 0)
  | p :: rest =>
    let (a, t) := CountApprovals rest
    if p.role == "REVIEWER" then (if p.approved then (a + 1, t + 1) else (a, t + 1)) else (a, t)

/-- The starting value of `GetLastActivity`'s running maximum:
`last := lastUpdated; if last.IsZero() { last = lastCreated }`. Note the
`IsZero` test is against the zero `time.Time`, not against millisecond 0. -/
def lastActivityStart (pr : PullRequest) : Int :=
  if pr.updatedDate = zeroTimeUnixMilli then pr.createdDate else pr.updatedDate

/-- The running maximum of `GetLastActivity` after the comment scan:
`if commentTime.After(last) { last = commentTime }` for each comment, where
`commentTime` is the comment's `UpdatedDate`. -/
def lastActivityMax (pr : PullRequest) (comments : List Comment) : Int :=
  comments.foldl
    (fun last c => if last < c.updatedDate then c.updatedDate else last)
    (lastActivityStart pr)

/-- `GetLastActivity` (internal/bitbucket), with the returned RFC 3339 string
identified with the millisecond instant of the final running maximum and the
empty string with `none`: returns `""` when `UpdatedDate == 0 &&
CreatedDate == 0`, and again when the final maximum is the zero `time.Time`;
otherwise formats the maximum. -/
def GetLastActivity (pr : PullRequest) (comments : List Comment) : Option Int :=
  if pr.updatedDate = 0 ∧ pr.createdDate = 0 then none
  else if lastActivityMax pr comments = zeroTimeUnixMilli then none
  else some (lastActivityMax pr comments)

/-- The instant (whole seconds) denoted by the RFC 3339 string that
`GetLastActivity` returns: `time.Format(time.RFC3339)` truncates the instant
to whole seconds, i.e. floor division of the milliseconds by 1000. -/
def renderedActivity (pr : PullRequest) (comments : List Comment) : Option Int :=
  (GetLastActivity pr comments).map fun ms => ms.fdiv 1000

/-- Models the success of `time.Parse(time.RFC3339, s)` on the output of
`time.Format(time.RFC3339)` (UTC): Go prints the year as-is and the RFC 3339
parser accepts exactly an unsigned four-digit year, so the round trip
succeeds precisely for instants from 0000-01-01T00:00:00Z to
9999-12-31T23:59:59Z (in whole seconds). -/
def rfc3339RoundTrip (sec : Int) : Bool :=
  decide (-62167219200 ≤ sec ∧ sec ≤ 253402300799)

/-- `daysWithoutActivity := int(time.Since(lastTime).Hours() / 24)`
(cmd/main.go): elapsed whole days, with Go's `int()` conversion truncating
toward zero (`Int.tdiv`). Both instants are in milliseconds. At the
magnitudes the pipeline handles the float64 evaluation in Go is exact, so
the exact integer semantics below is faithful. -/
def daysWithoutActivity (now lastMs : Int) : Int :=
  (now - lastMs).tdiv 86400000

/-- The staleness verdict `daysWithoutActivity >= cfg.PRFilter.StaleAfterDays`
(cmd/main.go). -/
def isStale (now lastMs staleAfterDays : Int) : Bool :=
  decide (staleAfterDays ≤ daysWithoutActivity now lastMs)

/-- Modelled from the spec, section 4.3 (the Activity Resolver contract, which
the missing original documentation of `GetLastActivity` is specified by):
start from `updatedAt`; if that is the zero timestamp fall back to
`createdAt`; if both are zero signal no activity; then replace the running
maximum by every comment `updatedAt` that is strictly later. This is the
reference algorithm the code is compared against. -/
def lastActivitySpecAlg (pr : PullRequest) (comments : List Comment) : Option Int :=
  if pr.updatedDate = 0 ∧ pr.createdDate = 0 then none
  else
    let start := if pr.updatedDate = 0 then pr.createdDate else pr.updatedDate
    some (comments.foldl
      (fun last c => if last < c.updatedDate then c.updatedDate else last) start)

/-- The configuration fields the run loop reads (internal/config):
`cfg.Bitbucket.Repositories`, `cfg.PRFilter.IgnoreKeywords`,
`cfg.PRFilter.StaleAfterDays`, and the notification interval
(`cfg.Notification.IntervalHours`, here already converted to
milliseconds as `time.Duration(hours) * time.Hour` is). -/
structure AppConfig where
  repositories : List String
  ignoreKeywords : List String
  staleAfterDays : Int
  intervalMillis : Int

/-- One cycle's snapshot of the Bitbucket collaborator: the de-paginated
results (or errors) of the three fetches the orchestrator performs. -/
structure CycleEnv where
  listOpenPRs : String → Except Unit (List PullRequest)
  getParticipants : String → Int → Except Unit (List Participant)
  getComments : String → Int → Except Unit (List Comment)

/-- Replace the binding of key `k` in an association list, or append it:
models assignment `m[k] = v` on a Go map with integer keys. -/
def setEntry {β : Type} : List (Int × β) → Int → β → List (Int × β)
  | [], k, v => [(k, v)]
  | (k', v') :: rest, k, v =>
    if k' = k then (k, v) :: rest else (k', v') :: setEntry rest k v

/-- Look up a key in an association list with integer keys: models reading a
Go map. -/
def getEntry {β : Type} : List (Int × β) → Int → Option β
  | [], _ => none
  | (k', v) :: rest, k => if k' = k then some v else getEntry rest k

/-- `repoPRsToNotify[repo] = append(repoPRsToNotify[repo], pr)` on a Go map
from repository name to PR list (a missing key reads as the empty list). -/
def appendRepoEntry : List (String × List PullRequest) → String → PullRequest →
    List (String × List PullRequest)
  | [], repo, pr => [(repo, [pr])]
  | (r, l) :: rest, repo, pr =>
    if r = repo then (r, l ++ [pr]) :: rest else (r, l) :: appendRepoEntry rest repo pr

/-- The three accumulators one cycle builds (cmd/main.go):
`allPRsToNotify`, `repoPRsToNotify`, `prParticipants`. -/
structure CycleState where
  allPRsToNotify : List PullRequest
  repoPRsToNotify : List (String × List PullRequest)
  prParticipants : List (Int × List Participant)
deriving DecidableEq

/-- The decision chain of the per-PR loop body after the participants fetch
succeeded (cmd/main.go): the PR reaches the accumulators exactly when it is
not fully approved, its comments fetch succeeds, `GetLastActivity` is
non-empty, the timestamp parses back, and the staleness test passes. Each
`false` branch is one of the `continue` statements of the Go loop. -/
def prIsStaleCandidate (env : CycleEnv) (now staleAfterDays : Int) (repo : String)
    (pr : PullRequest) (participants : List Participant) : Bool :=
  if IsPRApproved participants then false
  else
    match env.getComments repo pr.id with
    | .error _ => false
    | .ok comments =>
      match GetLastActivity pr comments with
      | none => false
      | some lastMs =>
        let lastSec := lastMs.fdiv 1000
        if rfc3339RoundTrip lastSec then isStale now (lastSec * 1000) staleAfterDays
        else false

/-- The per-PR loop body (cmd/main.go): on participants-fetch failure the PR
is skipped; on success the participant list is recorded in `prParticipants`
first, and the PR is appended to the stale accumulators exactly when the
rest of the chain classifies it stale. -/
def processPR (env : CycleEnv) (now staleAfterDays : Int) (repo : String)
    (st : CycleState) (pr : PullRequest) : CycleState :=
  match env.getParticipants repo pr.id with
  | .error _ => st
  | .ok participants =>
    let st' := { st with prParticipants := setEntry st.prParticipants pr.id participants }
    if prIsStaleCandidate env now staleAfterDays repo pr participants then
      { st' with
        allPRsToNotify := st'.allPRsToNotify ++ [pr]
        repoPRsToNotify := appendRepoEntry st'.repoPRsToNotify repo pr }
    else st'

/-- The per-repository loop body (cmd/main.go): on PR-list fetch failure the
repository is skipped; otherwise the keyword filter is applied and every
surviving PR is processed in order. -/
def processRepo (env : CycleEnv) (now staleAfterDays : Int) (ignoreKeywords : List String)
    (st : CycleState) (repo : String) : CycleState :=
  match env.listOpenPRs repo with
  | .error _ => st
  | .ok prs => (FilterPRs prs ignoreKeywords).foldl (processPR env now staleAfterDays repo) st

/-- One full cycle (the body of the `shouldNotify` branch of `run` in
cmd/main.go): fresh accumulators, then every configured repository in
order. -/
def runCycle (cfg : AppConfig) (env : CycleEnv) (now : Int) : CycleState :=
  cfg.repositories.foldl
    (processRepo env now cfg.staleAfterDays cfg.ignoreKeywords) ⟨[], [], []⟩

/-- One loop iteration's view of the collaborators with side effects: the
Bitbucket snapshot, the checkpoint read result (`GetLastNotificationTime`,
whose successful value is the stored instant, with `none` standing for the
zero `time.Time` that an absent checkpoint yields per the checkpoint
contract), and whether `SetLastNotificationTime` would fail. Notifier
failures are logged by the Go code and change no state, so they need no
field. -/
structure LoopEnv where
  cycleEnv : CycleEnv
  readResult : Except Unit (Option Int)
  writeFails : Bool

/-- The observable outcome of one pass through the `for`/`select` body of
`run` (cmd/main.go): `aborted` when the iteration makes `run` return an
error, otherwise the checkpoint content after the iteration, together with
the cycle result when the gate let the cycle run. -/
inductive IterOutcome where
  | aborted : IterOutcome
  | skipped : Option Int → IterOutcome
  | ran : Option Int → CycleState → IterOutcome
deriving DecidableEq

/-- `shouldNotify := lastNotified.IsZero() || time.Since(lastNotified) >=
interval` (cmd/main.go), with `time.Since t = now - t`. -/
def shouldNotify (lastNotified : Option Int) (now intervalMillis : Int) : Bool :=
  lastNotified.isNone || decide (intervalMillis ≤ now - lastNotified.getD 0)

/-- One iteration of `run` (cmd/main.go): a checkpoint read error is returned
(aborting the loop); a closed gate skips to the wait step with the
checkpoint untouched; otherwise the cycle runs, and the checkpoint is set to
`now` exactly when the cycle found at least one stale PR and the write
succeeds (a write failure is only logged, leaving the stored value
unchanged). -/
def runIteration (cfg : AppConfig) (env : LoopEnv) (now : Int) : IterOutcome :=
  match env.readResult with
  | .error _ => .aborted
  | .ok lastNotified =>
    if shouldNotify lastNotified now cfg.intervalMillis then
      let st := runCycle cfg env.cycleEnv now
      if 0 < st.allPRsToNotify.length then
        .ran (if env.writeFails then lastNotified else some now) st
      else .ran lastNotified st
    else .skipped lastNotified

/-- A stale, unapproved sample PR: updated one day after the epoch. -/
def stalePR : PullRequest := ⟨1, "fix", 0, 86400000⟩

/-- A reviewer that has not approved. -/
def dissentingReviewer : Participant := ⟨"u", "REVIEWER", false, "UNAPPROVED"⟩

/-- A non-reviewer participant. -/
def authorParticipant : Participant := ⟨"a", "AUTHOR", false, "UNAPPROVED"⟩

/-- A comment updated two days after the epoch. -/
def laterComment : Comment := ⟨0, 172800000⟩

/-- A PR updated exactly one second after the epoch. -/
def subsecondPR : PullRequest := ⟨2, "", 0, 1000⟩

/-- A single-repository configuration with no ignore keywords, a 3-day
staleness threshold and a 1-hour interval. -/
def oneRepoCfg : AppConfig := ⟨["r"], [], 3, 3600000⟩

/-- A cycle snapshot in which the one repository returns `stalePR`, its
participants fetch yields a dissenting reviewer, and it has no comments. -/
def staleCycleEnv : CycleEnv :=
  ⟨fun _ => .ok [stalePR], fun _ _ => .ok [dissentingReviewer], fun _ _ => .ok []⟩

/-- A loop environment with an absent checkpoint, a failing checkpoint write,
and a cycle that finds one stale PR. -/
def writeFailEnv : LoopEnv := ⟨staleCycleEnv, .ok none, true⟩

/-- A cycle snapshot in which every fetch fails. -/
def failingCycleEnv : CycleEnv :=
  ⟨fun _ => .error (), fun _ _ => .error (), fun _ _ => .error ()⟩

/-- A loop environment with an absent checkpoint and a cycle that finds
nothing (every fetch fails). -/
def emptyLoopEnv : LoopEnv := ⟨failingCycleEnv, .ok none, false⟩

/-! ## Helper lemmas -/

theorem foldl_preserve {γ α : Type} {P : γ → Prop} (f : γ → α → γ)
    (hf : ∀ st a, P st → P (f st a)) (l : List α) :
    ∀ st : γ, P st → P (l.foldl f st) := by
  induction l with
  | nil => intro st h; exact h
  | cons a l ih => intro st h; exact ih (f st a) (hf st a h)

theorem foldl_establish {γ α : Type} {P : γ → Prop} (f : γ → α → γ) (x : α)
    (hx : ∀ st, P (f st x)) (hf : ∀ st a, P st → P (f st a)) (l : List α) :
    ∀ st : γ, x ∈ l → P (l.foldl f st) := by
  induction l with
  | nil => intro st h; cases h
  | cons a l ih =>
    intro st h
    rcases List.mem_cons.mp h with h | h
    · subst h; exact foldl_preserve f hf l (f st x) (hx st)
    · exact ih (f st a) h

theorem getEntry_setEntry_self {β : Type} (m : List (Int × β)) (k : Int) (v : β) :
    getEntry (setEntry m k v) k = some v := by
  induction m with
  | nil => simp [setEntry, getEntry]
  | cons p rest ih =>
    obtain ⟨k', v'⟩ := p
    by_cases h : k' = k
    · simp [setEntry, getEntry, h]
    · simp [setEntry, getEntry, h, ih]

theorem getEntry_setEntry_isSome {β : Type} (m : List (Int × β)) (k k' : Int) (v : β)
    (h : (getEntry m k).isSome = true) :
    (getEntry (setEntry m k' v) k).isSome = true := by
  induction m with
  | nil => simp [getEntry] at h
  | cons p rest ih =>
    obtain ⟨k₀, v₀⟩ := p
    by_cases hk : k₀ = k'
    · subst hk
      by_cases hkk : k₀ = k
      · simp [setEntry, getEntry, hkk]
      · simp only [setEntry, if_pos rfl]
        simp only [getEntry, if_neg hkk] at h ⊢
        exact h
    · by_cases hkk : k₀ = k
      · subst hkk
        simp [setEntry, getEntry, hk]
      · simp only [setEntry, if_neg hk, getEntry, if_neg hkk] at h ⊢
        exact ih h

theorem filterPRs_go (K : List String) (prs : List PullRequest) :
    ∀ acc : List PullRequest,
      prs.foldl
        (fun acc pr => if containsIgnoreKeyword pr.title K then acc else acc ++ [pr]) acc
        = acc ++ prs.filter fun pr => !containsIgnoreKeyword pr.title K := by
  induction prs with
  | nil => intro acc; simp
  | cons pr rest ih =>
    intro acc
    cases h : containsIgnoreKeyword pr.title K <;>
      simp [List.foldl_cons, h, ih, List.filter_cons]

theorem IsPRApproved_cons (p : Participant) (rest : List Participant) :
    IsPRApproved (p :: rest) =
      if p.role == "REVIEWER" && !p.approved then false else IsPRApproved rest := rfl

theorem strLower_eq_nil_iff (s : String) : strLower s = [] ↔ s = "" := by
  rw [strLower, List.map_eq_nil_iff, String.ext_iff]
  show s.toList = [] ↔ s.data = "".data
  have h : "".data = ([] : List Char) := rfl
  rw [h]
  exact Iff.rfl

/-! ## Claim theorems -/

/-- C1 (code bug): at `UpdatedDate = 0`, `CreatedDate = 86400000` (one day
after the epoch) and no comments, `GetLastActivity` yields the Unix epoch
(`time.UnixMilli 0`, rendered 1970-01-01T00:00:00Z) instead of falling back
to `CreatedDate` as the specified algorithm requires: the fallback branch
`if last.IsZero() { last = lastCreated }` is dead for `UpdatedDate == 0`
because `time.UnixMilli 0` is not the zero `time.Time`. -/
theorem getLastActivity_createdAt_fallback_dead :
    GetLastActivity ⟨1, "", 86400000, 0⟩ [] = some 0 ∧
    lastActivitySpecAlg ⟨1, "", 86400000, 0⟩ [] = some 86400000 := by decide

/-- C4 counterexample: with threshold `N = 0` and a resolved activity instant
1 ms in the future (`now = 0`, `t = 1` ms — that is, `0*24h − 1ms` in the
past), the code classifies the PR stale (`int()` truncates `−1ms/24h` to 0,
and `0 ≥ 0`), while `floor((now − t)/24h) = −1 < 0`, so the claimed
floor-based classification and the claimed non-staleness at `N*24h − 1ms`
both fail. -/
theorem isStale_floor_cex :
    isStale 0 1 0 = true ∧ ¬ ((0:Int) ≤ ((0:Int) - 1).fdiv 86400000) := by decide

/-- C4, amended: the elapsed-day count truncates toward zero, which agrees
with the floor computation whenever the activity is not in the future
(`t ≤ now`); an activity exactly `N*24h` in the past is stale for every
`N ≥ 0`; one `N*24h − 1ms` in the past is not stale for every `N ≥ 1` (at
`N = 0` that instant lies 1 ms in the future and is classified stale). -/
theorem isStale_boundary_amended (now t N : Int) (_hN : 0 ≤ N) :
    (t ≤ now → (isStale now t N = true ↔ N ≤ (now - t).fdiv 86400000)) ∧
    isStale now (now - N * 86400000) N = true ∧
    (1 ≤ N → isStale now (now - (N * 86400000 - 1)) N = false) := by
  refine ⟨?_, ?_, ?_⟩
  · intro ht
    have h0 : (0:Int) ≤ now - t := by omega
    simp only [isStale, daysWithoutActivity, decide_eq_true_eq]
    rw [Int.tdiv_eq_ediv h0 (by norm_num), Int.fdiv_eq_ediv _ (by norm_num)]
  · simp only [isStale, daysWithoutActivity, decide_eq_true_eq]
    have e : now - (now - N * 86400000) = N * 86400000 := by ring
    rw [e, Int.mul_tdiv_cancel _ (by norm_num)]
  · intro h1
    simp only [isStale, daysWithoutActivity, decide_eq_false_iff_not]
    have e : now - (now - (N * 86400000 - 1)) = N * 86400000 - 1 := by ring
    have h0 : (0:Int) ≤ N * 86400000 - 1 := by
      have : (1:Int) * 86400000 ≤ N * 86400000 := by
        exact mul_le_mul_of_nonneg_right h1 (by norm_num)
      omega
    rw [e, Int.tdiv_eq_ediv h0 (by norm_num)]
    omega

theorem isStale_boundary_amended_witness :
    (0:Int) ≤ 1 ∧ isStale 0 (0 - (1 * 86400000 - 1)) 1 = false :=
  ⟨by decide, (isStale_boundary_amended 0 0 1 (by decide)).2.2 (by decide)⟩

/-- C6 counterexample: the empty title IS disqualified when the keyword set
contains the empty string (`strings.Contains "" "" = true`), contradicting
the claim that an empty title never matches; the corresponding PR is dropped
by `FilterPRs`. -/
theorem keywordFilter_empty_title_cex :
    containsIgnoreKeyword "" [""] = true ∧
    FilterPRs [⟨1, "", 0, 0⟩] [""] = [] := by decide

/-- C6, amended: the filter disqualifies a title exactly when some keyword,
lowercased, occurs inside the lowercased title; the empty keyword set
excludes nothing; the empty title is disqualified exactly when the keyword
set contains the empty string (the empty string occurs in every title);
`FilterPRs` keeps exactly the PRs whose titles are not disqualified, in
order. -/
theorem keywordFilter_spec_amended (title : String) (K : List String)
    (prs : List PullRequest) :
    (containsIgnoreKeyword title K = true ↔
      ∃ kw ∈ K, strLower kw <:+: strLower title) ∧
    containsIgnoreKeyword title [] = false ∧
    (containsIgnoreKeyword "" K = true ↔ "" ∈ K) ∧
    FilterPRs prs K = prs.filter fun pr => !containsIgnoreKeyword pr.title K := by
  refine ⟨?_, ?_, ?_, ?_⟩
  · simp [containsIgnoreKeyword, List.any_eq_true]
  · simp [containsIgnoreKeyword]
  · simp only [containsIgnoreKeyword, List.any_eq_true, decide_eq_true_eq]
    constructor
    · rintro ⟨kw, hkw, hinf⟩
      have : strLower kw = [] := by
        have h0 : strLower "" = [] := rfl
        rw [h0] at hinf
        exact List.infix_nil.mp hinf
      rwa [(strLower_eq_nil_iff kw).mp this] at hkw
    · intro h
      exact ⟨"", h, by simp⟩
  · simpa [FilterPRs] using filterPRs_go K prs []

/-- C7: `IsPRApproved` holds exactly when no REVIEWER-role participant has
`approved == false`; the empty list is vacuously approved; inserting a
non-reviewer participant anywhere never changes the verdict. -/
theorem isPRApproved_iff (P : List Participant) :
    (IsPRApproved P = true ↔ ∀ p ∈ P, p.role = "REVIEWER" → p.approved = true) ∧
    IsPRApproved [] = true ∧
    (∀ (l₁ l₂ : List Participant) (p : Participant), p.role ≠ "REVIEWER" →
      IsPRApproved (l₁ ++ p :: l₂) = IsPRApproved (l₁ ++ l₂)) := by
  refine ⟨?_, rfl, ?_⟩
  · induction P with
    | nil => simp [IsPRApproved]
    | cons p rest ih =>
      by_cases h : p.role = "REVIEWER"
      · by_cases ha : p.approved = true
        · simp [IsPRApproved, h, ha, ih]
        · simp only [IsPRApproved, h, ha]
          constructor
          · intro hfalse; simp at hfalse
          · intro hall
            exact absurd (hall p (List.mem_cons_self p rest) h) ha
      · simp [IsPRApproved, h, ih]
  · intro l₁ l₂ p hp
    induction l₁ with
    | nil => simp [IsPRApproved, hp]
    | cons q rest ih =>
      simp only [List.cons_append, IsPRApproved_cons, ih]

theorem isPRApproved_iff_witness :
    authorParticipant.role ≠ "REVIEWER" ∧
    IsPRApproved ([] ++ authorParticipant :: []) = IsPRApproved ([] ++ []) :=
  ⟨by decide, (isPRApproved_iff []).2.2 [] [] authorParticipant (by decide)⟩

theorem lastActivityMax_append (pr : PullRequest) (cs : List Comment) (c : Comment) :
    lastActivityMax pr (cs ++ [c]) =
      if lastActivityMax pr cs < c.updatedDate then c.updatedDate
      else lastActivityMax pr cs := by
  simp [lastActivityMax, List.foldl_append]

theorem fdiv_thousand_le (m : Int) : m.fdiv 1000 * 1000 ≤ m := by
  rw [Int.fdiv_eq_ediv _ (by norm_num)]
  exact Int.ediv_mul_le m (by norm_num)

theorem lt_fdiv_thousand_succ (m : Int) : m < (m.fdiv 1000 + 1) * 1000 := by
  rw [Int.fdiv_eq_ediv _ (by norm_num)]
  exact Int.lt_ediv_add_one_mul_self m (by norm_num)

theorem le_fdiv_thousand_iff (a b : Int) : a ≤ b.fdiv 1000 ↔ a * 1000 ≤ b := by
  rw [Int.fdiv_eq_ediv _ (by norm_num)]
  exact Int.le_ediv_iff_mul_le (by norm_num)

theorem getLastActivity_eq_some_iff (pr : PullRequest) (cs : List Comment) (m : Int) :
    GetLastActivity pr cs = some m ↔
      ¬(pr.updatedDate = 0 ∧ pr.createdDate = 0) ∧
      lastActivityMax pr cs ≠ zeroTimeUnixMilli ∧ lastActivityMax pr cs = m := by
  by_cases h1 : pr.updatedDate = 0 ∧ pr.createdDate = 0
  · simp [GetLastActivity, h1]
  · by_cases h2 : lastActivityMax pr cs = zeroTimeUnixMilli
    · simp [GetLastActivity, h1, h2]
    · simp [GetLastActivity, h1, h2, eq_comm]

/-- C10 counterexample: `GetLastActivity` returns the empty string on a PR
whose `UpdatedDate` and `CreatedDate` are both the zero-`time.Time` instant
`-62135596800000` ms — neither field is 0, refuting "empty iff both
timestamps are zero" (the final `last.IsZero()` guard fires). -/
theorem getLastActivity_empty_iff_cex :
    GetLastActivity ⟨1, "", zeroTimeUnixMilli, zeroTimeUnixMilli⟩ [] = none ∧
    (⟨1, "", zeroTimeUnixMilli, zeroTimeUnixMilli⟩ : PullRequest).updatedDate ≠ 0 := by
  decide

/-- C10, amended: the result is empty exactly when both PR timestamps are 0,
or the final running maximum is the zero-`time.Time` instant (reachable only
through `-62135596800000` ms inputs); comment timestamps alone never yield a
value (both-zero short-circuits before the comment scan); a non-empty result
denotes the whole-second truncation of the running maximum and parses back
through RFC 3339 without error whenever that instant lies within years
0–9999. -/
theorem getLastActivity_empty_iff_amended (pr : PullRequest) (cs : List Comment) :
    (GetLastActivity pr cs = none ↔
      (pr.updatedDate = 0 ∧ pr.createdDate = 0) ∨
      lastActivityMax pr cs = zeroTimeUnixMilli) ∧
    (∀ m, GetLastActivity pr cs = some m →
      -62167219200000 ≤ m → m ≤ 253402300799999 →
      rfc3339RoundTrip (m.fdiv 1000) = true) := by
  constructor
  · by_cases h1 : pr.updatedDate = 0 ∧ pr.createdDate = 0
    · simp [GetLastActivity, h1]
    · by_cases h2 : lastActivityMax pr cs = zeroTimeUnixMilli <;>
        simp [GetLastActivity, h1, h2]
  · intro m _hm hlo hhi
    have hlo' : (-62167219200 : Int) ≤ m.fdiv 1000 := by
      rw [le_fdiv_thousand_iff]; omega
    have hhi' : m.fdiv 1000 ≤ 253402300799 := by
      by_contra hc
      push_neg at hc
      have h8 : (253402300800 : Int) ≤ m.fdiv 1000 := by omega
      have := (le_fdiv_thousand_iff 253402300800 m).mp h8
      omega
    simp [rfc3339RoundTrip, hlo', hhi']

theorem getLastActivity_empty_iff_amended_witness :
    GetLastActivity stalePR [] = some 86400000 ∧
    rfc3339RoundTrip ((86400000 : Int).fdiv 1000) = true :=
  ⟨by decide,
    (getLastActivity_empty_iff_amended stalePR []).2 86400000 (by decide) (by decide)
      (by decide)⟩

/-- C3 counterexample: the resolver's output is rendered at whole-second
RFC 3339 granularity, so appending a comment 500 ms later than the resolved
value v = 1 s (comment `updatedAt` = 1500 ms > 1000 ms) leaves the resolved
value exactly 1 s — not strictly greater, refuting the claimed strict
monotonicity. -/
theorem getLastActivity_subsecond_cex :
    renderedActivity subsecondPR [] = some 1 ∧
    (1 : Int) * 1000 < 1500 ∧
    renderedActivity subsecondPR [⟨0, 1500⟩] = some 1 := by decide

/-- C3, amended: appending a comment whose `updatedAt` is strictly later than
the resolved value v (and is not the zero-`time.Time` instant) yields a
resolved value ≥ v, strictly greater whenever the comment is at least one
full second past v (sub-second advances can render identically, since
RFC 3339 output truncates to whole seconds); appending a comment with
`updatedAt` ≤ v yields exactly v again. -/
theorem getLastActivity_monotone_amended (pr : PullRequest) (cs : List Comment)
    (v : Int) (c : Comment) (h : renderedActivity pr cs = some v) :
    (v * 1000 < c.updatedDate → c.updatedDate ≠ zeroTimeUnixMilli →
      ∃ v', renderedActivity pr (cs ++ [c]) = some v' ∧ v ≤ v' ∧
        ((v + 1) * 1000 ≤ c.updatedDate → v < v')) ∧
    (c.updatedDate ≤ v * 1000 → renderedActivity pr (cs ++ [c]) = some v) := by
  obtain ⟨m, hm, hv⟩ : ∃ m, GetLastActivity pr cs = some m ∧ m.fdiv 1000 = v := by
    simpa [renderedActivity] using h
  obtain ⟨h1, h2, h3⟩ := (getLastActivity_eq_some_iff pr cs m).mp hm
  have hm0 : m ≠ zeroTimeUnixMilli := h3 ▸ h2
  constructor
  · intro hlt hcz
    by_cases hmc : m < c.updatedDate
    · have hmax : lastActivityMax pr (cs ++ [c]) = c.updatedDate := by
        rw [lastActivityMax_append, h3, if_pos hmc]
      refine ⟨c.updatedDate.fdiv 1000, ?_, ?_, ?_⟩
      · have := (getLastActivity_eq_some_iff pr (cs ++ [c]) c.updatedDate).mpr
          ⟨h1, by rw [hmax]; exact hcz, hmax⟩
        simp [renderedActivity, this]
      · rw [le_fdiv_thousand_iff]; omega
      · intro hge
        have h4 : v + 1 ≤ c.updatedDate.fdiv 1000 := by
          rw [le_fdiv_thousand_iff]; omega
        omega
    · have hce : c.updatedDate ≤ m := le_of_not_lt hmc
      have hmax : lastActivityMax pr (cs ++ [c]) = m := by
        rw [lastActivityMax_append, h3, if_neg hmc]
      refine ⟨v, ?_, le_refl v, ?_⟩
      · have := (getLastActivity_eq_some_iff pr (cs ++ [c]) m).mpr
          ⟨h1, by rw [hmax]; exact hm0, hmax⟩
        simp [renderedActivity, this, hv]
      · intro hge
        have h5 := lt_fdiv_thousand_succ m
        rw [hv] at h5
        omega
  · intro hle
    have hvm : v * 1000 ≤ m := by
      rw [← hv]; exact fdiv_thousand_le m
    have hcm : ¬ (m < c.updatedDate) := by omega
    have hmax : lastActivityMax pr (cs ++ [c]) = m := by
      rw [lastActivityMax_append, h3, if_neg hcm]
    have := (getLastActivity_eq_some_iff pr (cs ++ [c]) m).mpr
      ⟨h1, by rw [hmax]; exact hm0, hmax⟩
    simp [renderedActivity, this, hv]

theorem getLastActivity_monotone_amended_witness :
    renderedActivity stalePR [] = some 86400 ∧
    (∃ v', renderedActivity stalePR ([] ++ [laterComment]) = some v' ∧ 86400 ≤ v' ∧
      ((86400 + 1) * 1000 ≤ laterComment.updatedDate → 86400 < v')) :=
  ⟨by decide,
    (getLastActivity_monotone_amended stalePR [] 86400 laterComment (by decide)).1
      (by decide) (by decide)⟩

theorem shouldNotify_iff (l : Option Int) (now i : Int) :
    shouldNotify l now i = true ↔ l = none ∨ i ≤ now - l.getD 0 := by
  cases l <;> simp [shouldNotify]

/-- C2 counterexample: a cycle that finds one stale PR, with a failing
checkpoint write (`SetLastNotificationTime` returns an error): the iteration
does not abort — the Go code only logs the write error and continues,
contradicting the claim that checkpoint write failures are fatal. -/
theorem runIteration_write_failure_not_fatal_cex :
    writeFailEnv.writeFails = true ∧
    0 < (runCycle oneRepoCfg writeFailEnv.cycleEnv 864000000).allPRsToNotify.length ∧
    runIteration oneRepoCfg writeFailEnv 864000000 ≠ .aborted := by decide

/-- C2, amended: a checkpoint read failure (`GetLastNotificationTime` error)
aborts the loop, and it is the only failure class that does; a checkpoint
write failure (`SetLastNotificationTime` error) is logged, leaves the stored
checkpoint unchanged, and the loop continues. -/
theorem runIteration_abort_iff_read_failure (cfg : AppConfig) (env : LoopEnv) (now : Int) :
    (runIteration cfg env now = .aborted ↔ env.readResult = .error ()) ∧
    (∀ l, env.readResult = .ok l → env.writeFails = true →
      runIteration cfg env now = .skipped l ∨
      runIteration cfg env now = .ran l (runCycle cfg env.cycleEnv now)) := by
  constructor
  · cases h : env.readResult with
    | error e =>
      cases e
      simp [runIteration, h]
    | ok l =>
      by_cases hs : shouldNotify l now cfg.intervalMillis
      · by_cases hn : 0 < (runCycle cfg env.cycleEnv now).allPRsToNotify.length
        · simp [runIteration, h, hs, hn]
        · simp [runIteration, h, hs, hn]
      · simp [runIteration, h, hs]
  · intro l hl hw
    by_cases hs : shouldNotify l now cfg.intervalMillis
    · by_cases hn : 0 < (runCycle cfg env.cycleEnv now).allPRsToNotify.length
      · right; simp [runIteration, hl, hw, hs, hn]
      · right; simp [runIteration, hl, hs, hn]
    · left; simp [runIteration, hl, hs]

theorem runIteration_abort_iff_read_failure_witness :
    writeFailEnv.readResult = .ok none ∧ writeFailEnv.writeFails = true ∧
    (runIteration oneRepoCfg writeFailEnv 864000000 = .skipped none ∨
     runIteration oneRepoCfg writeFailEnv 864000000 =
       .ran none (runCycle oneRepoCfg writeFailEnv.cycleEnv 864000000)) :=
  ⟨rfl, rfl,
    (runIteration_abort_iff_read_failure oneRepoCfg writeFailEnv 864000000).2 none rfl rfl⟩

/-- C5: when the checkpoint read succeeds with value `l`, the cycle
orchestrator runs exactly when `l` is absent/zero or `now − l ≥ interval`;
otherwise the iteration skips straight to the wait step with no fetches
(the skipped outcome carries no cycle result). In particular: an absent
checkpoint always proceeds, a checkpoint of `now − interval + 1s` skips, and
one of `now − interval − 1s` proceeds. -/
theorem runIteration_gate_iff (cfg : AppConfig) (env : LoopEnv) (now : Int)
    (l : Option Int) (hread : env.readResult = .ok l) :
    ((∃ c st, runIteration cfg env now = .ran c st) ↔
      l = none ∨ cfg.intervalMillis ≤ now - l.getD 0) ∧
    (runIteration cfg env now = .skipped l ↔
      ¬(l = none ∨ cfg.intervalMillis ≤ now - l.getD 0)) ∧
    (l = none → ∃ c st, runIteration cfg env now = .ran c st) ∧
    (l = some (now - cfg.intervalMillis + 1000) →
      runIteration cfg env now = .skipped l) ∧
    (l = some (now - cfg.intervalMillis - 1000) →
      ∃ c st, runIteration cfg env now = .ran c st) := by
  have hgate := shouldNotify_iff l now cfg.intervalMillis
  by_cases hs : shouldNotify l now cfg.intervalMillis
  · have hcond : l = none ∨ cfg.intervalMillis ≤ now - l.getD 0 := hgate.mp hs
    have hran : ∃ c st, runIteration cfg env now = .ran c st := by
      by_cases hn : 0 < (runCycle cfg env.cycleEnv now).allPRsToNotify.length
      · refine ⟨if env.writeFails then l else some now, runCycle cfg env.cycleEnv now, ?_⟩
        simp [runIteration, hread, hs, hn]
      · refine ⟨l, runCycle cfg env.cycleEnv now, ?_⟩
        simp [runIteration, hread, hs, hn]
    refine ⟨⟨fun _ => hcond, fun _ => hran⟩, ?_, fun _ => hran, ?_, fun _ => hran⟩
    · constructor
      · intro hsk
        by_cases hn : 0 < (runCycle cfg env.cycleEnv now).allPRsToNotify.length
        · simp [runIteration, hread, hs, hn] at hsk
        · simp [runIteration, hread, hs, hn] at hsk
      · intro hneg; exact absurd hcond hneg
    · intro hl
      subst hl
      rcases hcond with h | h
      · exact absurd h (by simp)
      · simp only [Option.getD_some] at h
        omega
  · have hcond : ¬(l = none ∨ cfg.intervalMillis ≤ now - l.getD 0) :=
      fun hc => hs (hgate.mpr hc)
    refine ⟨?_, ?_, ?_, ?_, ?_⟩
    · constructor
      · rintro ⟨c, st, hrun⟩
        simp [runIteration, hread, hs] at hrun
      · intro hc; exact absurd hc hcond
    · simp [runIteration, hread, hs, hcond]
    · intro hl; exact absurd (Or.inl hl) hcond
    · intro _; simp [runIteration, hread, hs]
    · intro hl
      subst hl
      exfalso
      apply hcond
      right
      simp only [Option.getD_some]
      omega

theorem runIteration_gate_iff_witness :
    emptyLoopEnv.readResult = .ok none ∧
    (∃ c st, runIteration oneRepoCfg emptyLoopEnv 0 = .ran c st) :=
  ⟨rfl, (runIteration_gate_iff oneRepoCfg emptyLoopEnv 0 none rfl).2.2.1 rfl⟩

/-- C8: a cycle that finds no stale PR leaves the checkpoint exactly as read
(whether the gate skipped or the cycle ran empty), and whenever the stored
checkpoint changes, it changes to `now` and the cycle found at least one
stale PR. -/
theorem checkpoint_unchanged_iff (cfg : AppConfig) (env : LoopEnv) (now : Int)
    (l : Option Int) (hread : env.readResult = .ok l) :
    ((runCycle cfg env.cycleEnv now).allPRsToNotify = [] →
      runIteration cfg env now = .skipped l ∨
      runIteration cfg env now = .ran l (runCycle cfg env.cycleEnv now)) ∧
    (∀ c st, runIteration cfg env now = .ran c st →
      c ≠ l → c = some now ∧ st.allPRsToNotify ≠ []) := by
  constructor
  · intro hempty
    by_cases hs : shouldNotify l now cfg.intervalMillis
    · right
      have hn : ¬ 0 < (runCycle cfg env.cycleEnv now).allPRsToNotify.length := by
        simp [hempty]
      simp [runIteration, hread, hs, hn]
    · left
      simp [runIteration, hread, hs]
  · intro c st hrun hne
    by_cases hs : shouldNotify l now cfg.intervalMillis
    · by_cases hn : 0 < (runCycle cfg env.cycleEnv now).allPRsToNotify.length
      · simp only [runIteration, hread, hs, if_true, hn, if_pos] at hrun
        by_cases hw : env.writeFails
        · simp [hw] at hrun
          exact absurd hrun.1.symm hne
        · simp [hw] at hrun
          refine ⟨hrun.1.symm, ?_⟩
          rw [← hrun.2]
          intro hnil
          rw [hnil] at hn
          simp at hn
      · simp [runIteration, hread, hs, hn] at hrun
        exact absurd hrun.1.symm hne
    · simp [runIteration, hread, hs] at hrun

theorem checkpoint_unchanged_iff_witness :
    emptyLoopEnv.readResult = .ok none ∧
    (runCycle oneRepoCfg emptyLoopEnv.cycleEnv 0).allPRsToNotify = [] ∧
    (runIteration oneRepoCfg emptyLoopEnv 0 = .skipped none ∨
     runIteration oneRepoCfg emptyLoopEnv 0 =
       .ran none (runCycle oneRepoCfg emptyLoopEnv.cycleEnv 0)) :=
  ⟨rfl, by decide,
    (checkpoint_unchanged_iff oneRepoCfg emptyLoopEnv 0 none rfl).1 (by decide)⟩

/-- C9: within one cycle, every PR that survives the keyword filter of a
successfully fetched repository and whose participants fetch succeeds gets
an entry in the PR-id-to-participants map — the participant list is recorded
before the approval, activity and staleness checks, so PRs dropped later are
included, not only the stale ones. -/
theorem prParticipants_complete (cfg : AppConfig) (env : CycleEnv) (now : Int)
    (repo : String) (prs : List PullRequest) (pr : PullRequest) (ps : List Participant)
    (hr : repo ∈ cfg.repositories)
    (hprs : env.listOpenPRs repo = .ok prs)
    (hpr : pr ∈ FilterPRs prs cfg.ignoreKeywords)
    (hps : env.getParticipants repo pr.id = .ok ps) :
    (getEntry (runCycle cfg env now).prParticipants pr.id).isSome = true := by
  have hpres : ∀ (r : String) (st : CycleState) (q : PullRequest),
      (getEntry st.prParticipants pr.id).isSome = true →
      (getEntry (processPR env now cfg.staleAfterDays r st q).prParticipants pr.id).isSome
        = true := by
    intro r st q hst
    unfold processPR
    cases hq : env.getParticipants r q.id with
    | error e => exact hst
    | ok qs =>
      dsimp only
      split
      · exact getEntry_setEntry_isSome _ _ _ _ hst
      · exact getEntry_setEntry_isSome _ _ _ _ hst
  have hest : ∀ st : CycleState,
      (getEntry (processPR env now cfg.staleAfterDays repo st pr).prParticipants pr.id).isSome
        = true := by
    intro st
    unfold processPR
    rw [hps]
    dsimp only
    split
    · simp [getEntry_setEntry_self]
    · simp [getEntry_setEntry_self]
  have hrepoPres : ∀ (st : CycleState) (r : String),
      (getEntry st.prParticipants pr.id).isSome = true →
      (getEntry (processRepo env now cfg.staleAfterDays cfg.ignoreKeywords st r).prParticipants
        pr.id).isSome = true := by
    intro st r hst
    unfold processRepo
    cases h : env.listOpenPRs r with
    | error e => exact hst
    | ok prs' =>
      exact foldl_preserve _ (fun st q h => hpres r st q h) _ st hst
  have hrepoEst : ∀ st : CycleState,
      (getEntry (processRepo env now cfg.staleAfterDays cfg.ignoreKeywords st
        repo).prParticipants pr.id).isSome = true := by
    intro st
    unfold processRepo
    rw [hprs]
    exact foldl_establish _ pr hest (fun st q h => hpres repo st q h) _ st hpr
  unfold runCycle
  exact foldl_establish _ repo hrepoEst (fun st r h => hrepoPres st r h)
    cfg.repositories ⟨[], [], []⟩ hr

theorem prParticipants_complete_witness :
    ("r" ∈ oneRepoCfg.repositories ∧
     staleCycleEnv.listOpenPRs "r" = .ok [stalePR] ∧
     stalePR ∈ FilterPRs [stalePR] oneRepoCfg.ignoreKeywords ∧
     staleCycleEnv.getParticipants "r" stalePR.id = .ok [dissentingReviewer]) ∧
    (getEntry (runCycle oneRepoCfg staleCycleEnv 864000000).prParticipants
      stalePR.id).isSome = true :=
  ⟨⟨by decide, rfl, by decide, rfl⟩,
    prParticipants_complete oneRepoCfg staleCycleEnv 864000000 "r" [stalePR] stalePR
      [dissentingReviewer] (by decide) rfl (by decide) rfl⟩

end PRTracker
